import Mathlib

/-!
A verification development for the `mkdocstrings` Markdown extension
(`src/mkdocstrings/extension.py`).

The Python module is shallowly embedded: each Lean definition mirrors one
function (or a contiguous fragment) of the source.  External collaborators
(the YAML parser, the handlers container, the backends, the inventory) are
modelled at their interfaces: the YAML parser by the outcome of its single
call, the handlers container and backends by structures of functions, the
inventory (whose `register` lives in `mkdocstrings.handlers.base`, outside
the extension module) from the specification's description of its
first-writer-wins policy.

Python `dict`s are association lists, `set`s are lists used up to
membership, `ChainMap`s are lists of layers searched left to right, and
`xml.etree` elements are a mutual inductive of nodes and child lists.
-/

/-! ## YAML values and the configuration parse step (extension.py line 194) -/

/-- A parsed YAML value, as returned by `yaml.safe_load`. -/
inductive Val : Type where
  | null
  | bool (b : Bool)
  | int (n : Int)
  | str (s : String)
  | list (xs : List Val)
  | map (m : List (String × Val))

/-- Python truthiness on parsed YAML values: `None`, `False`, `0`, `""`,
`[]` and `{}` are falsy. -/
def isFalsy : Val → Bool
  | .null => true
  | .bool b => !b
  | .int n => n = 0
  | .str s => s = ""
  | .list xs => xs.isEmpty
  | .map m => m.isEmpty

/-- An error raised by `yaml.safe_load` on text it cannot parse
(`yaml.YAMLError`; the extension module installs no handler for it). -/
inductive YamlError : Type where
  | malformed (msg : String)
  deriving DecidableEq

/-- Line 194, `config = yaml.safe_load(yaml_block) or {}`: the outcome of the
`yaml.safe_load` call is the input; a falsy result is replaced by the empty
mapping, and a parser error propagates (there is no `try` around the call). -/
def loadedConfig : Except YamlError Val → Except YamlError Val
  | .error e => .error e
  | .ok v => .ok (if isFalsy v then Val.map [] else v)

/-! ## Option layering (extension.py lines 201-206) -/

/-- An `OptionSet`: a `ChainMap`, i.e. a list of mapping layers searched left
to right.  `ChainMap(ChainMap(a, b), c)` looks keys up in `a`, then `b`,
then `c`, so nesting flattens to the layer list `[a, b, c]`. -/
abbrev OptionSet : Type := List (List (String × Val))

/-- Key lookup in a `ChainMap`: the first layer containing the key wins. -/
def chainLookup (layers : OptionSet) (key : String) : Option Val :=
  match layers with
  | [] => none
  | m :: rest =>
    match m.lookup key with
    | some v => some v
    | none => chainLookup rest key

/-- Lines 203-206 of `_process_block`:
`options = ChainMap(local_options, global_options)` and, when
`heading_level` is truthy,
`options = ChainMap(options, {"heading_level": heading_level})  # like setdefault`.
The extra `heading_level` layer is searched last. -/
def buildOptions (local_options global_options : List (String × Val))
    (heading_level : Nat) : OptionSet :=
  let options : OptionSet := [local_options, global_options]
  if heading_level ≠ 0 then options ++ [[("heading_level", Val.int heading_level)]]
  else options

/-! ## Backends and the handlers container (external interfaces) -/

/-- A backend handler, the `BaseHandler` capability interface consumed by the
extension: `collect` and `render` may fail (`CollectionError`,
`TemplateNotFound`), `fallback_config` is the configuration used for the
secondary anchor lookup, `get_anchors` yields extra anchor names.  The
collector item type is a parameter `α`. -/
structure Backend (α : Type) where
  domain : String
  collect : String → OptionSet → Except Unit α
  render : α → OptionSet → Except Unit String
  fallback_config : OptionSet
  get_anchors : α → List String

/-- The handlers container consumed by `_process_block`:
`get_handler_name` resolves a configuration mapping to a handler name,
`get_handler_config` returns that handler's configured mapping, and
`get_handler` returns the (cached, per-name) live handler instance. -/
structure HandlersModel (α : Type) where
  get_handler_name : List (String × Val) → String
  get_handler_config : String → List (String × Val)
  get_handler : String → Backend α

/-- The read `dict.get("options", {})` on a configuration mapping.  The source hands
whatever value sits under `"options"` to `ChainMap`; only mapping values are
exercised by any claim, and a non-mapping value is modelled as the empty
layer here. -/
def getOptions (m : List (String × Val)) : List (String × Val) :=
  match m.lookup ("options") with
  | some (.map mm) => mm
  | _ => []

/-- An error escaping `_process_block`: a propagated `yaml.YAMLError`, an
`AttributeError` from calling `.get` on a truthy non-mapping configuration,
the `PluginError` raised on `CollectionError`, or a re-raised
`TemplateNotFound`. -/
inductive PErr : Type where
  | yamlError (e : YamlError)
  | attributeError
  | pluginError (identifier : String)
  | templateNotFound
  deriving DecidableEq

/-- What one successful `_process_block` call returns, together with whether
this call ran the one-time `handler._update_env` hook. -/
structure BlockOutput (α : Type) where
  rendered : String
  handlerName : String
  data : α
  envUpdated : Bool

/-- The resolver `_process_block` (lines 174-232).  The mutable `self._updated_envs` set
is threaded explicitly as a list used up to membership; the outcome of the
`yaml.safe_load` call stands in for `yaml_block`.  Steps, in source order:
parse the configuration (line 194), resolve the handler (195-199), layer the
options (201-206), collect (209-215, `CollectionError` becomes
`PluginError`), run `_update_env` once per handler name (217-220), render
(222-230). -/
def processBlock (H : HandlersModel α) (updatedEnvs : List String)
    (identifier : String) (yamlOutcome : Except YamlError Val)
    (heading_level : Nat) : Except PErr (BlockOutput α × List String) :=
  match loadedConfig yamlOutcome with
  | .error e => .error (.yamlError e)
  | .ok config =>
    match config with
    | .map m =>
      let handler_name := H.get_handler_name m
      let handler_config := H.get_handler_config handler_name
      let handler := H.get_handler handler_name
      let global_options := getOptions handler_config
      let local_options := getOptions m
      let options := buildOptions local_options global_options heading_level
      match handler.collect identifier options with
      | .error _ => .error (.pluginError identifier)
      | .ok data =>
        let updated := handler_name ∉ updatedEnvs
        let updatedEnvs' :=
          if handler_name ∈ updatedEnvs then updatedEnvs else updatedEnvs ++ [handler_name]
        match handler.render data options with
        | .error _ => .error (.templateNotFound)
        | .ok rendered =>
          .ok (⟨rendered, handler_name, data, updated⟩, updatedEnvs')
    | _ => .error (.attributeError)

/-- One matched instruction block, reduced to what `_process_block`
consumes. -/
structure BlockInput : Type where
  identifier : String
  yamlOutcome : Except YamlError Val
  heading_level : Nat

/-- A document-processing session: the successive `_process_block` calls of
one document, threading `self._updated_envs`; the first failure aborts the
document build. -/
def runSeq (H : HandlersModel α) (updatedEnvs : List String) :
    List BlockInput → Except PErr (List (BlockOutput α) × List String)
  | [] => .ok ([], updatedEnvs)
  | b :: rest =>
    match processBlock H updatedEnvs b.identifier b.yamlOutcome b.heading_level with
    | .error e => .error e
    | .ok (out, envs') =>
      match runSeq H envs' rest with
      | .error e => .error e
      | .ok (outs, envsF) => .ok (out :: outs, envsF)

/-! ## The inventory and the anchor registrar (run, lines 136-164) -/

/-- One inventory record, as registered by `run`. -/
structure InventoryEntry : Type where
  name : String
  domain : String
  role : String
  priority : Nat
  uri : String
  deriving DecidableEq

/-- The inventory: entries in registration order; `name in inventory` is
membership among the entries' names. -/
abbrev Inventory : Type := List InventoryEntry

/-- The entry registered under a name, if any. -/
def invLookup (inv : Inventory) (name : String) : Option InventoryEntry :=
  inv.find? (fun e => e.name = name)

/-- Modelled from the spec: `Inventory.register` lives in
`mkdocstrings.handlers.base`, outside this module; per §3 a name already
present is never overwritten — first writer wins. -/
def invRegister (inv : Inventory) (e : InventoryEntry) : Inventory :=
  if (invLookup inv e.name).isSome then inv else inv ++ [e]

/-- A heading element produced by `handler.get_headings()`: its `id`
attribute and optional `data-role` attribute. -/
structure Heading : Type where
  id : String
  dataRole : Option String

/-- The body of the `for heading in headings` loop of `run` (lines 138-164),
restricted to its inventory effects: when the heading carries `data-role`,
register its id with priority 1, then re-collect the rendered anchor with
the handler's `fallback_config`; on `CollectionError` stop there, otherwise
register each extra anchor of `get_anchors` with priority 2 and the same
`page#id` uri, skipping anchors already in the inventory. -/
def processHeading (B : Backend α) (page : String) (h : Heading)
    (inv : Inventory) : Inventory :=
  match h.dataRole with
  | none => inv
  | some role =>
    let inv1 := invRegister inv ⟨h.id, B.domain, role, 1, page ++ "#" ++ h.id⟩
    match B.collect h.id B.fallback_config with
    | .error _ => inv1
    | .ok data_object =>
      (B.get_anchors data_object).foldl
        (fun acc anchor =>
          if (invLookup acc anchor).isSome then acc
          else invRegister acc ⟨anchor, B.domain, role, 2, page ++ "#" ++ h.id⟩)
        inv1

/-! ## The document tree and `_remove_duplicated_headings` (lines 239-253) -/

mutual
/-- An `xml.etree.ElementTree.Element`: tag, attributes, leading text
(`.text`), trailing text (`.tail`), ordered children. -/
inductive Element : Type where
  | mk (tag : String) (attrs : List (String × String)) (text : Option String)
       (tail : Option String) (children : ElementList)
  deriving DecidableEq
/-- The ordered child list of an element. -/
inductive ElementList : Type where
  | nil
  | cons (e : Element) (rest : ElementList)
  deriving DecidableEq
end

def tagOf : Element → String
  | .mk t _ _ _ _ => t

def attrsOf : Element → List (String × String)
  | .mk _ a _ _ _ => a

def textOf : Element → Option String
  | .mk _ _ x _ _ => x

def tailOf : Element → Option String
  | .mk _ _ _ tl _ => tl

def childrenOf : Element → ElementList
  | .mk _ _ _ _ c => c

/-- The test `el.tag == "div" and el.get("class") == "mkdocstrings"`: a
duplicate-heading container. -/
def isDup (e : Element) : Bool :=
  tagOf e = "div" && (attrsOf e).lookup ("class") = some ("mkdocstrings")

/-- Replace an element's `tail` (the mutation `el.tail = ...`). -/
def setTail : Element → Option String → Element
  | .mk t a x _ c, tl => .mk t a x tl c

mutual
/-- The pass `_remove_duplicated_headings(parent)`: children are walked in reverse;
a duplicate-heading container contributes its `.text` to the carry and is
removed; any other child absorbs a pending carry into its `.tail` and is
recursed into; a carry left after the first child goes onto the parent's
`.text`.  The source appends to the child's `.tail` before recursing; the
recursion neither reads nor writes that `.tail`, so the two steps are
written here in the opposite order. -/
def _remove_duplicated_headings : Element → Element
  | .mk tag attrs text tail children =>
    let p := dedupChildren children
    let text' := if p.2 ≠ ("") then some ((text.getD ("")) ++ p.2) else text
    .mk tag attrs text' tail p.1
/-- The reversed `for el in reversed(parent)` loop: processes a child list
given the carry arriving from the later siblings, returning the new child
list and the carry left for the preceding sibling (or the parent). -/
def dedupChildren : ElementList → ElementList × String
  | .nil => (.nil, "")
  | .cons el rest =>
    let p := dedupChildren rest
    if isDup el then (p.1, (textOf el).getD ("") ++ p.2)
    else
      let el' := _remove_duplicated_headings el
      let el'' := if p.2 ≠ ("") then setTail el' (some ((tailOf el').getD ("") ++ p.2)) else el'
      (.cons el'' p.1, "")
end

mutual
/-- The linear text of an element as later serialization sees it: its own
`.text`, then each child's serialization followed by that child's
`.tail`. -/
def serialize : Element → String
  | .mk _ _ text _ children => text.getD ("") ++ serializeList children
def serializeList : ElementList → String
  | .nil => ""
  | .cons el rest => serialize el ++ (tailOf el).getD ("") ++ serializeList rest
end

mutual
/-- The text `_remove_duplicated_headings` is meant to keep, computed
directly on the input tree: a duplicate-heading container contributes only
its `.text` (its stashed HTML) — its descendants and its `.tail` are
dropped — and every other node contributes as in `serialize`. -/
def serializeKept : Element → String
  | .mk _ _ text _ children => text.getD ("") ++ serializeKeptList children
def serializeKeptList : ElementList → String
  | .nil => ""
  | .cons el rest =>
    (if isDup el then (textOf el).getD ("") else serializeKept el ++ (tailOf el).getD (""))
      ++ serializeKeptList rest
end

mutual
/-- All text carried by a tree, including every node's `.text` and `.tail`. -/
def totalText : Element → String
  | .mk _ _ text tail children => text.getD ("") ++ tail.getD ("") ++ totalTextList children
def totalTextList : ElementList → String
  | .nil => ""
  | .cons el rest => totalText el ++ totalTextList rest
end

mutual
/-- The preorder tag list of a tree. -/
def tagsTree : Element → List String
  | .mk tag _ _ _ children => tag :: tagsList children
def tagsList : ElementList → List String
  | .nil => []
  | .cons el rest => tagsTree el ++ tagsList rest
end

mutual
/-- The preorder tag list of the nodes the deduplicator keeps: subtrees
rooted at duplicate-heading containers are dropped. -/
def tagsKept : Element → List String
  | .mk tag _ _ _ children => tag :: tagsKeptList children
def tagsKeptList : ElementList → List String
  | .nil => []
  | .cons el rest =>
    (if isDup el then [] else tagsKept el) ++ tagsKeptList rest
end

mutual
/-- No duplicate-heading container occurs among an element's descendants. -/
def noDupDescB : Element → Bool
  | .mk _ _ _ _ children => noDupListB children
def noDupListB : ElementList → Bool
  | .nil => true
  | .cons el rest => !isDup el && noDupDescB el && noDupListB rest
end

mutual
/-- Some duplicate-heading container occurs in the tree (the root
included). -/
def hasDupB : Element → Bool
  | .mk tag attrs text tail children =>
    isDup (.mk tag attrs text tail children) || hasDupListB children
def hasDupListB : ElementList → Bool
  | .nil => false
  | .cons el rest => hasDupB el || hasDupListB rest
end

/-! ## TOC tokens and `_override_toc_labels` (lines 260-264) -/

mutual
/-- A TOC token: its display `name`, the optional `data-toc-label`
attribute, and its child tokens. -/
inductive TocToken : Type where
  | mk (name : String) (dataTocLabel : Option String) (children : TocList)
  deriving DecidableEq
/-- An ordered list of TOC tokens. -/
inductive TocList : Type where
  | nil
  | cons (t : TocToken) (rest : TocList)
  deriving DecidableEq
end

def nameOfTok : TocToken → String
  | .mk n _ _ => n

def labelOfTok : TocToken → Option String
  | .mk _ l _ => l

def childrenOfTok : TocToken → TocList
  | .mk _ _ c => c

/-- The guarded mutation of line 262-263: the walrus condition
`(label := token.get("data-toc-label")) and token["name"] != label` is true
only for a present, non-empty (truthy) label that differs from the name. -/
def relabel (name : String) (label : Option String) : String :=
  match label with
  | some l => if l ≠ ("") ∧ name ≠ l then l else name
  | none => name

mutual
/-- The per-token body of `_override_toc_labels`: rewrite the name when the
guard holds, then visit the children unconditionally. -/
def overrideTok : TocToken → TocToken
  | .mk name label children => .mk (relabel name label) label (_override_toc_labels children)
/-- The pass `_override_toc_labels(tokens)` (lines 260-264). -/
def _override_toc_labels : TocList → TocList
  | .nil => .nil
  | .cons t rest => .cons (overrideTok t) (_override_toc_labels rest)
end

mutual
/-- Preorder list of (name, data-toc-label) pairs of a token tree. -/
def flattenTok : TocToken → List (String × Option String)
  | .mk name label children => (name, label) :: flattenList children
def flattenList : TocList → List (String × Option String)
  | .nil => []
  | .cons t rest => flattenTok t ++ flattenList rest
end

mutual
/-- A token tree with names and labels erased: its pure shape. -/
def stripTok : TocToken → TocToken
  | .mk _ _ children => .mk ("") none (stripList children)
def stripList : TocList → TocList
  | .nil => .nil
  | .cons t rest => .cons (stripTok t) (stripList rest)
end

/-! ## The instruction matcher (regex, line 60; run, lines 108-172) -/

/-- Python's `str.split("\n")`, over characters (all matcher functions work
on character lists, indices counted in characters as Python does). -/
def splitLines : List Char → List (List Char)
  | [] => [[]]
  | c :: rest =>
    if c = '\n' then [] :: splitLines rest
    else
      match splitLines rest with
      | l :: ls => (c :: l) :: ls
      | [] => [[c]]

/-- The group `(?P<name>.+?) *$` applied to the rest of a line (no newline inside):
the lazy group takes the line minus its maximal trailing-space run when
that is non-empty; on a non-empty all-space rest it takes one character;
the empty rest does not match. -/
def matchName (s : List Char) : Option (List Char) :=
  if s = [] then none
  else
    let t := (s.reverse.dropWhile (fun c => c = ' ')).reverse
    if t = [] then some ([' ']) else some t

/-- The piece `::: ?` followed by the name group: the greedy `?` first consumes one
space when present, backtracking to none if the name group then fails. -/
def matchAfterColons (rest : List Char) : Option (List Char) :=
  match rest with
  | ' ' :: r1 =>
    match matchName r1 with
    | some n => some n
    | none => matchName rest
  | _ => matchName rest

/-- One line against `^(?P<heading>#{1,6} *|)::: ?(?P<name>.+?) *$`: returns
`(heading count, name)`.  The heading alternative consumes the maximal
leading run of 1-6 `#` and then spaces; with no `#` the empty alternative
applies.  When a line matches, the match spans the whole line. -/
def lineMatch (line : List Char) : Option (Nat × List Char) :=
  let k := (line.takeWhile (fun c => c = '#')).length
  if k = 0 then
    match line with
    | ':' :: ':' :: ':' :: rest => (matchAfterColons rest).map (fun n => (0, n))
    | _ => none
  else if k ≤ 6 then
    match (line.drop k).dropWhile (fun c => c = ' ') with
    | ':' :: ':' :: ':' :: rest => (matchAfterColons rest).map (fun n => (k, n))
    | _ => none
  else none

/-- The search `self.regex.search(block)` over the block's lines: the first matching
line gives the match, returned as
`(match.start(), match.end(), heading count, name)`, the match spanning
that whole line. -/
def findMatch : List (List Char) → Nat → Option (Nat × Nat × Nat × List Char)
  | [], _ => none
  | l :: rest, offset =>
    match lineMatch l with
    | some (hl, name) => some (offset, offset + l.length, hl, name)
    | none => findMatch rest (offset + l.length + 1)

def regexSearch (block : List Char) : Option (Nat × Nat × Nat × List Char) :=
  findMatch (splitLines block) 0

/-- The test that `line.strip()` is falsy: the line is all whitespace. -/
def isBlankLine (l : List Char) : Bool :=
  l.all (fun c => c.isWhitespace)

/-- The line loop of `markdown.blockprocessors.BlockProcessor.detab` (an
external host primitive, modelled from its implementation with the default
tab length 4): keep de-indenting lines that start with four spaces, blank
lines becoming empty, and stop at the first other line. -/
def detabLines : List (List Char) → List (List Char)
  | [] => []
  | l :: rest =>
    if [' ', ' ', ' ', ' '].isPrefixOf l then (l.drop 4) :: detabLines rest
    else if isBlankLine l then [] :: detabLines rest
    else []

/-- The call `self.detab(block)`: the de-indented prefix and the remaining lines. -/
def detab (text : List Char) : List Char × List Char :=
  let lines := splitLines text
  let newtext := detabLines lines
  (List.intercalate (['\n']) newtext, List.intercalate (['\n']) (lines.drop newtext.length))

/-- The block-splitting part of `AutoDocProcessor.run` (lines 108-124 and
168-172), for the block popped from the head of `blocks`: returns the
blocks handed back to `self.parser.parseBlocks`, the matched instruction as
`(identifier, heading_level, config_text)` if any, and the pending blocks
after the run (blank-line special case for detached `handler:`/`options:`
lines included). -/
def runSplit (block0 : String) (blocks : List String) :
    List String × Option (String × Nat × String) × List String :=
  let cs := block0.data
  let m := regexSearch cs
  let pre : List String :=
    match m with
    | some (s, _, _, _) => if s > 0 then [String.mk (cs.take s)] else []
    | none => []
  let block1 :=
    match m with
    | some (_, e, _, _) => cs.drop e
    | none => cs
  let p := detab block1
  let q : String × List String :=
    match blocks with
    | b :: rest =>
      if p.1 = ([] : List Char) ∧
          (("    handler:").data.isPrefixOf b.data ∨ ("    options:").data.isPrefixOf b.data)
      then (b, rest) else (String.mk p.1, blocks)
    | [] => (String.mk p.1, blocks)
  let instr :=
    match m with
    | some (_, _, hl, name) => some ((String.mk name, hl, q.1))
    | none => none
  let blocks2 := if p.2 ≠ ([] : List Char) then String.mk p.2 :: q.2 else q.2
  (pre, instr, blocks2)

/-! ## Concrete demonstration data used by witnesses and counterexamples -/

/-- A concrete backend over `α := String` for concrete evaluations. -/
def demoBackend : Backend String where
  domain := "py"
  collect := fun identifier _ => .ok identifier
  render := fun data _ => .ok ("<html>" ++ data ++ "</html>")
  fallback_config := []
  get_anchors := fun _ => ["extra1", "extra2"]

/-- A concrete handlers container for concrete evaluations. -/
def demoHandlers : HandlersModel String where
  get_handler_name := fun _ => "python"
  get_handler_config := fun _ => []
  get_handler := fun _ => demoBackend

/-! ## C1: precedence of the instruction's heading level -/

/--
C1, as stated: for every local and global options mapping and every
`heading_level > 0`, looking `"heading_level"` up in the built `OptionSet`
yields the instruction's value, overriding both layers.  False: the source
adds the `heading_level` layer behind the local and global layers
(`# like setdefault`), so a `"heading_level"` key in the local layer wins.
-/
theorem C1_counterexample :
    0 < 2 ∧
      chainLookup (buildOptions ([("heading_level", Val.int 5)]) ([]) 2) ("heading_level") ≠
        some (Val.int 2) := by
  refine ⟨by decide, fun h => ?_⟩
  have h5 : some (Val.int 5) = some (Val.int 2) := h
  injection h5 with h5
  injection h5 with h5
  exact absurd h5 (by decide)

/--
C1, amended: with `heading_level > 0`, looking `"heading_level"` up in the
`OptionSet` built by `_process_block` yields the local layer's value if that
key is present there, else the global layer's value if present there, and
only otherwise the instruction's `heading_level` — the instruction's value
is a default, not an override.
-/
theorem C1_heading_level_is_default (local_options global_options : List (String × Val))
    (heading_level : Nat) (h : 0 < heading_level) :
    chainLookup (buildOptions local_options global_options heading_level) ("heading_level") =
      (List.lookup ("heading_level") local_options).orElse (fun _ =>
        (List.lookup ("heading_level") global_options).orElse (fun _ =>
          some (Val.int heading_level))) := by
  have hne : heading_level ≠ 0 := Nat.pos_iff_ne_zero.mp h
  cases hcl : List.lookup ("heading_level") local_options <;>
    cases hcg : List.lookup ("heading_level") global_options <;>
      simp [buildOptions, chainLookup, hne, hcl, hcg, Option.orElse]

/-- Witness for `C1_heading_level_is_default` at concrete inputs. -/
theorem C1_witness :
    0 < 2 ∧
      chainLookup (buildOptions ([("x", Val.int 1)]) ([]) 2) ("heading_level") =
        (List.lookup ("heading_level") ([("x", Val.int 1)])).orElse (fun _ =>
          (List.lookup ("heading_level") ([] : List (String × Val))).orElse (fun _ =>
            some (Val.int 2))) :=
  ⟨by decide, C1_heading_level_is_default ([("x", Val.int 1)]) ([]) 2 (by decide)⟩

/-! ## C2 and C9: the configuration parse step -/

/--
C2, as stated: parsing the configuration text never fails — malformed text
also yields the empty `Configuration`.  False: line 194 guards only a falsy
*result* of `yaml.safe_load` (`... or {}`); a `yaml.YAMLError` raised on
malformed text is not caught anywhere in the module and `_process_block`
fails with it.
-/
theorem C2_counterexample :
    processBlock demoHandlers [] ("a.b") (.error (.malformed ("bad: ["))) 0 =
      .error (.yamlError (.malformed ("bad: ["))) := rfl

/--
C2, amended: configuration text whose parse *succeeds* never makes
`_process_block` fail at the parse step — a falsy parse result (empty or
null-parsing text) is replaced by the empty configuration and processing
proceeds identically; only text the YAML parser itself rejects raises, and
that error propagates.
-/
theorem C2_parse_recovery (H : HandlersModel α) (updatedEnvs : List String)
    (identifier : String) (v : Val) (heading_level : Nat) :
    (isFalsy v = true →
      processBlock H updatedEnvs identifier (.ok v) heading_level =
        processBlock H updatedEnvs identifier (.ok (Val.map [])) heading_level) ∧
    ∀ e, processBlock H updatedEnvs identifier (.ok v) heading_level ≠
        .error (.yamlError e) := by
  constructor
  · intro hf
    simp [processBlock, loadedConfig, hf]
  · intro e h
    simp only [processBlock, loadedConfig] at h
    split at h
    · split at h <;> first | (split at h <;> simp_all) | simp_all
    · simp_all

/-- Witness for `C2_parse_recovery` at concrete inputs. -/
theorem C2_witness :
    isFalsy Val.null = true ∧
      processBlock demoHandlers [] ("a.b") (.ok Val.null) 0 =
        processBlock demoHandlers [] ("a.b") (.ok (Val.map [])) 0 :=
  ⟨rfl, (C2_parse_recovery demoHandlers [] ("a.b") Val.null 0).1 rfl⟩

/--
C9: a falsy parse result of the structured-configuration text (empty text,
comment-only text, text parsing to null) is replaced by the empty mapping
before handler resolution, and the configuration the parse step hands on is
never null.
-/
theorem C9_falsy_config_replaced (v : Val) :
    (isFalsy v = true → loadedConfig (.ok v) = .ok (Val.map [])) ∧
    ∃ c, loadedConfig (.ok v) = .ok c ∧ c ≠ Val.null := by
  refine ⟨fun hf => by simp [loadedConfig, hf], ⟨_, rfl, ?_⟩⟩
  cases v <;> dsimp only [loadedConfig, isFalsy] <;>
    first
      | (intro h; exact Val.noConfusion h)
      | (split <;> intro h <;> exact Val.noConfusion h)

/-- Witness for `C9_falsy_config_replaced` at a concrete input. -/
theorem C9_witness :
    isFalsy Val.null = true ∧ loadedConfig (.ok Val.null) = .ok (Val.map []) :=
  ⟨rfl, (C9_falsy_config_replaced Val.null).1 rfl⟩

/-! ## C10 and C8: the TOC label overrider -/

/--
C10: a present-but-empty `data-toc-label` never relabels the token (Python
truthiness), nor does a label equal to the existing name; only a non-empty
label that differs from the name is applied.
-/
theorem C10_truthy_label_guard (name : String) (label : String) (children : TocList) :
    ((label = "" ∨ label = name) →
      nameOfTok (overrideTok (.mk name (some label) children)) = name) ∧
    ((label ≠ "" ∧ label ≠ name) →
      nameOfTok (overrideTok (.mk name (some label) children)) = label) := by
  constructor
  · rintro (h | h) <;> simp [overrideTok, relabel, nameOfTok, h]
  · rintro ⟨h1, h2⟩
    simp [overrideTok, relabel, nameOfTok, h1, Ne.symm h2]

/-- Witness for `C10_truthy_label_guard` at concrete inputs. -/
theorem C10_witness :
    (("" : String) = "" ∨ ("" : String) = "Foo") ∧
      nameOfTok (overrideTok (.mk ("Foo") (some ("")) .nil)) = "Foo" :=
  ⟨Or.inl rfl, (C10_truthy_label_guard ("Foo") ("") .nil).1 (Or.inl rfl)⟩

mutual
/-- The pass `_override_toc_labels` never changes a tree's shape. -/
theorem strip_overrideTok : ∀ t : TocToken, stripTok (overrideTok t) = stripTok t
  | .mk _ l c => by simp [overrideTok, stripTok, strip_overrideList c]
theorem strip_overrideList :
    ∀ l : TocList, stripList (_override_toc_labels l) = stripList l
  | .nil => rfl
  | .cons t rest => by
    simp [_override_toc_labels, stripList, strip_overrideTok t, strip_overrideList rest]
end

mutual
/-- The pass `_override_toc_labels` rewrites names pointwise by `relabel`, keeping the
labels, over the preorder flattening. -/
theorem flatten_overrideTok :
    ∀ t : TocToken,
      flattenTok (overrideTok t) = (flattenTok t).map (fun p => (relabel p.1 p.2, p.2))
  | .mk n l c => by
    simp [overrideTok, flattenTok, flatten_overrideList c]
theorem flatten_overrideList :
    ∀ l : TocList,
      flattenList (_override_toc_labels l) = (flattenList l).map (fun p => (relabel p.1 p.2, p.2))
  | .nil => rfl
  | .cons t rest => by
    simp [_override_toc_labels, flattenList, flatten_overrideTok t, flatten_overrideList rest]
end

/--
C8, as stated: *every* token carrying a custom label different from its name
is renamed to that label.  False: the guard requires a truthy label, so a
token with the present label `""` and name `"Foo"` (which differ) keeps its
name.
-/
theorem C8_counterexample :
    nameOfTok (overrideTok (.mk ("Foo") (some ("")) .nil)) = "Foo" ∧ ("Foo" : String) ≠ "" :=
  ⟨rfl, by decide⟩

/--
C8, amended: `_override_toc_labels` visits every token (children are visited
whether or not the parent was mutated), rewrites each token's name to its
custom label exactly when that label is present, non-empty and different
from the name, leaves the labels themselves untouched, and adds or removes
no token: the shape is unchanged and the flattened (name, label) list is
rewritten pointwise.
-/
theorem C8_override_pointwise (t : TocToken) :
    stripTok (overrideTok t) = stripTok t ∧
      flattenTok (overrideTok t) = (flattenTok t).map (fun p => (relabel p.1 p.2, p.2)) :=
  ⟨strip_overrideTok t, flatten_overrideTok t⟩

/-! ## C5: the instruction matcher on a concrete block -/

/-- The concrete block of the claim. -/
def c5Block : String := "prefix\n::: a.b\n    opt: 1\nsuffix"

/--
C5, as stated: on `c5Block` the matcher yields `"prefix"` as the separate
block, config text `"opt: 1"`, and requeues `"suffix"`.  False in the exact
strings: `block[:match.start()]` keeps the newline that ended the prefix
line, and the config text keeps the newline that ended the marker line.
-/
theorem C5_counterexample :
    runSplit c5Block [] ≠ (["prefix"], some (("a.b", 0, "opt: 1")), ["suffix"]) := by
  decide

/--
C5, amended: on `c5Block` the matcher hands `"prefix\n"` (the preceding
content, its terminating newline included) back to the generic parser,
extracts identifier `"a.b"` with config text `"\nopt: 1"` (one indentation
level removed; the newline that ended the marker line retained), and
requeues `"suffix"` as the new first pending block.
-/
theorem C5_matcher_split :
    runSplit c5Block [] = (["prefix\n"], some (("a.b", 0, "\nopt: 1")), ["suffix"]) := by
  decide

/-! ## C4: the anchor registrar -/

/-- Looking a name up after a `register`: an already-present name keeps its
entry, otherwise the registered entry is found. -/
theorem invLookup_register (inv : Inventory) (e : InventoryEntry) (x : String) :
    invLookup (invRegister inv e) x =
      (invLookup inv x).orElse (fun _ => if x = e.name then some e else none) := by
  unfold invRegister
  split
  · rename_i hs
    by_cases hx : x = e.name
    · subst hx
      rcases Option.isSome_iff_exists.mp hs with ⟨v, hv⟩
      simp [hv, Option.orElse]
    · cases h : invLookup inv x <;> simp [Option.orElse, hx]
  · rename_i hs
    unfold invLookup at *
    rw [List.find?_append]
    cases h : List.find? (fun en => decide (en.name = x)) inv <;>
      simp [Option.orElse, List.find?]
    by_cases hx : e.name = x
    · subst hx
      simp
    · simp [hx]
      exact (if_neg (fun h2 => hx h2.symm)).symm

/-- The secondary-anchor loop of `run`: a name already present (in the
accumulated inventory) is left alone; a new name in the anchor list gets
the priority-2 entry. -/
theorem invLookup_anchors_fold (d r u : String) :
    ∀ (l : List String) (acc : Inventory) (x : String),
      invLookup (l.foldl (fun acc2 anchor =>
          if (invLookup acc2 anchor).isSome then acc2
          else invRegister acc2 ⟨anchor, d, r, 2, u⟩) acc) x =
        (invLookup acc x).orElse (fun _ =>
          if x ∈ l then some ⟨x, d, r, 2, u⟩ else none)
  | [], acc, x => by cases h : invLookup acc x <;> simp [Option.orElse, h]
  | a :: l, acc, x => by
    rw [List.foldl_cons, invLookup_anchors_fold d r u l]
    by_cases hp : (invLookup acc a).isSome
    · rw [if_pos hp]
      by_cases hx : x = a
      · subst hx
        rcases Option.isSome_iff_exists.mp hp with ⟨v, hv⟩
        simp [hv, Option.orElse]
      · cases hacc : invLookup acc x <;> simp [Option.orElse, hx, List.mem_cons]
    · rw [if_neg hp, invLookup_register]
      cases hacc : invLookup acc x <;> simp [Option.orElse]
      by_cases hx : x = a
      · subst hx
        simp
      · simp [hx, List.mem_cons]

/--
C4: in the anchor-registrar step, for a heading carrying a role marker whose
fallback re-collection succeeds, the inventory afterwards answers lookups
thus: an already-present name keeps its old entry; the heading's own id gets
the priority-1 entry; any other anchor name returned by `get_anchors` gets a
priority-2 entry whose uri is the same `page#id`; nothing else is added.
In particular an extra anchor is registered only if not already present.
-/
theorem C4_anchor_registrar (B : Backend α) (page : String) (hd : Heading)
    (inv : Inventory) (role : String) (item : α) (a : String)
    (hrole : hd.dataRole = some role)
    (hcol : B.collect hd.id B.fallback_config = .ok item) :
    invLookup (processHeading B page hd inv) a =
      (invLookup inv a).orElse (fun _ =>
        if a = hd.id then some ⟨hd.id, B.domain, role, 1, page ++ "#" ++ hd.id⟩
        else if a ∈ B.get_anchors item then
          some ⟨a, B.domain, role, 2, page ++ "#" ++ hd.id⟩
        else none) := by
  unfold processHeading
  rw [hrole, hcol]
  rw [invLookup_anchors_fold, invLookup_register]
  cases hacc : invLookup inv a <;> simp [Option.orElse]
  by_cases hx : a = hd.id
  · subst hx
    simp
  · simp [hx]

/-- Witness for `C4_anchor_registrar` at concrete inputs. -/
theorem C4_witness :
    invLookup
        (processHeading demoBackend ("p1") ⟨"pkg.Cls", some ("class")⟩ []) ("extra1") =
      (invLookup [] ("extra1")).orElse (fun _ =>
        if ("extra1" : String) = "pkg.Cls" then
          some ⟨"pkg.Cls", demoBackend.domain, "class", 1, "p1" ++ "#" ++ "pkg.Cls"⟩
        else if ("extra1" : String) ∈ demoBackend.get_anchors ("pkg.Cls") then
          some ⟨"extra1", demoBackend.domain, "class", 2, "p1" ++ "#" ++ "pkg.Cls"⟩
        else none) :=
  C4_anchor_registrar demoBackend ("p1") ⟨"pkg.Cls", some ("class")⟩ [] ("class")
    ("pkg.Cls") ("extra1") rfl rfl

/-! ## C6: the one-time environment-initialization hook -/

/-- A successful `_process_block` runs `_update_env` exactly when its handler
name is not yet in `self._updated_envs`, and records it there. -/
theorem processBlock_env (H : HandlersModel α) (updatedEnvs : List String)
    (identifier : String) (yamlOutcome : Except YamlError Val) (heading_level : Nat)
    (out : BlockOutput α) (envs' : List String)
    (hok : processBlock H updatedEnvs identifier yamlOutcome heading_level = .ok (out, envs')) :
    out.envUpdated = decide (out.handlerName ∉ updatedEnvs) ∧
      envs' = (if out.handlerName ∈ updatedEnvs then updatedEnvs
               else updatedEnvs ++ [out.handlerName]) := by
  simp only [processBlock] at hok
  split at hok
  · exact absurd hok (by simp)
  · split at hok
    · split at hok
      · exact absurd hok (by simp)
      · split at hok
        · exact absurd hok (by simp)
        · rw [Except.ok.injEq, Prod.mk.injEq] at hok
          rcases hok with ⟨hout, henvs⟩
          subst hout
          subst henvs
          simp
    · exact absurd hok (by simp)

/-- The per-session invariant behind the once-per-handler property: with
starting set `envs0`, the i-th successful block ran the hook exactly when
its handler name is neither in `envs0` nor among the earlier blocks'
handler names. -/
theorem runSeq_env_trace (H : HandlersModel α) :
    ∀ (bs : List BlockInput) (envs0 : List String) (outs : List (BlockOutput α))
      (envsF : List String),
      runSeq H envs0 bs = .ok (outs, envsF) →
      ∀ i (hi : i < outs.length),
        ((outs.get ⟨i, hi⟩).envUpdated = true ↔
          ((outs.get ⟨i, hi⟩).handlerName ∉ envs0 ∧
           (outs.get ⟨i, hi⟩).handlerName ∉ (outs.take i).map (fun o => o.handlerName)))
  | [], envs0, outs, envsF => by
    intro hrun i hi
    unfold runSeq at hrun
    cases hrun
    exact absurd hi (by simp)
  | b :: bs, envs0, outs, envsF => by
    intro hrun i hi
    unfold runSeq at hrun
    split at hrun
    · exact absurd hrun (by simp)
    · rename_i out envs1 hpb
      split at hrun
      · exact absurd hrun (by simp)
      · rename_i outs1 envsF1 hrun1
        cases hrun
        rcases processBlock_env H envs0 b.identifier b.yamlOutcome b.heading_level
          out envs1 hpb with ⟨hupd, henvs1⟩
        match i, hi with
        | 0, _ =>
          simp [hupd]
        | Nat.succ j, hj =>
          have hj' : j < outs1.length := by simpa using hj
          have ih := runSeq_env_trace H bs envs1 outs1 _ hrun1 j hj'
          have hne : (outs1.get ⟨j, hj'⟩).handlerName ∉ envs0 →
              out.handlerName ∈ envs0 →
              (outs1.get ⟨j, hj'⟩).handlerName ≠ out.handlerName :=
            fun hn hm heq => hn (heq ▸ hm)
          simp only [List.get_cons_succ, List.take_succ_cons, List.map_cons,
            List.mem_cons, not_or] at ih ⊢
          rw [ih, henvs1]
          by_cases hmem : out.handlerName ∈ envs0
          · rw [if_pos hmem]
            constructor
            · rintro ⟨h1, h2⟩
              exact ⟨h1, hne h1 hmem, h2⟩
            · rintro ⟨h1, _, h2⟩
              exact ⟨h1, h2⟩
          · rw [if_neg hmem]
            simp only [List.mem_append, not_or, List.mem_singleton]
            constructor
            · rintro ⟨⟨h1, h3⟩, h2⟩
              exact ⟨h1, h3, h2⟩
            · rintro ⟨h1, h3, h2⟩
              exact ⟨⟨h1, h3⟩, h2⟩

/--
C6: within one document-processing session started with an empty
`_updated_envs`, a successfully processed block runs the one-time
`_update_env` hook exactly when no earlier block of the session resolved to
the same handler name — the hook fires on the first block per handler name
and never again.
-/
theorem C6_env_update_once (H : HandlersModel α) (bs : List BlockInput)
    (outs : List (BlockOutput α)) (envsF : List String)
    (hrun : runSeq H [] bs = .ok (outs, envsF)) (i : Nat) (hi : i < outs.length) :
    (outs.get ⟨i, hi⟩).envUpdated = true ↔
      (outs.get ⟨i, hi⟩).handlerName ∉ (outs.take i).map (fun o => o.handlerName) := by
  have h := runSeq_env_trace H bs [] outs envsF hrun i hi
  simpa using h

/-- A concrete two-block session for the `C6_env_update_once` witness. -/
def c6Input : BlockInput := ⟨"a.b", .ok Val.null, 0⟩

/-- Its outputs: the hook fires on the first block only. -/
def c6Outs : List (BlockOutput String) :=
  [⟨"<html>a.b</html>", "python", "a.b", true⟩,
   ⟨"<html>a.b</html>", "python", "a.b", false⟩]

/-- Witness for `C6_env_update_once` at a concrete two-block session. -/
theorem C6_witness :
    (c6Outs.get ⟨1, by decide⟩).envUpdated = true ↔
      (c6Outs.get ⟨1, by decide⟩).handlerName ∉
        (c6Outs.take 1).map (fun o => o.handlerName) :=
  C6_env_update_once demoHandlers [c6Input, c6Input] c6Outs ["python"] rfl 1 (by decide)

/-! ## C3 and C7: the heading deduplicator -/

theorem serialize_setTail (e : Element) (tl : Option String) :
    serialize (setTail e tl) = serialize e := by
  cases e
  rfl

theorem tailOf_setTail (e : Element) (tl : Option String) :
    tailOf (setTail e tl) = tl := by
  cases e
  rfl

theorem tagsTree_setTail (e : Element) (tl : Option String) :
    tagsTree (setTail e tl) = tagsTree e := by
  cases e
  rfl

theorem isDup_setTail (e : Element) (tl : Option String) :
    isDup (setTail e tl) = isDup e := by
  cases e
  rfl

theorem noDupDescB_setTail (e : Element) (tl : Option String) :
    noDupDescB (setTail e tl) = noDupDescB e := by
  cases e
  rfl

theorem tailOf_dedup (e : Element) :
    tailOf (_remove_duplicated_headings e) = tailOf e := by
  cases e
  rfl

theorem isDup_dedup (e : Element) :
    isDup (_remove_duplicated_headings e) = isDup e := by
  cases e
  rfl

mutual
/-- One pass keeps exactly the intended linear text: each removed
container's `.text` stays at its linear position, its `.tail` and
descendants are dropped. -/
theorem dedup_serialize :
    ∀ e : Element, serialize (_remove_duplicated_headings e) = serializeKept e
  | .mk tag attrs text tail children => by
    have hB := dedupChildren_serialize children
    by_cases hc : (dedupChildren children).2 = ""
    · rw [hc, String.empty_append] at hB
      simp [_remove_duplicated_headings, serialize, serializeKept, hc, hB]
    · simp only [_remove_duplicated_headings, serialize, serializeKept, hc,
        ne_eq, not_false_iff, if_pos, Option.getD_some]
      rw [String.append_assoc, hB]
theorem dedupChildren_serialize :
    ∀ l : ElementList,
      (dedupChildren l).2 ++ serializeList (dedupChildren l).1 = serializeKeptList l
  | .nil => by simp [dedupChildren, serializeList, serializeKeptList]
  | .cons el rest => by
    have hB := dedupChildren_serialize rest
    by_cases hd : isDup el = true
    · simp only [dedupChildren, hd, if_pos, serializeKeptList]
      rw [String.append_assoc, hB]
    · have hA := dedup_serialize el
      by_cases hc : (dedupChildren rest).2 = ""
      · rw [hc, String.empty_append] at hB
        simp [dedupChildren, hd, hc, serializeList, serializeKeptList, hA, hB,
          tailOf_dedup, String.append_assoc]
      · simp only [dedupChildren, hd, hc, if_neg, ite_false, ite_true, ne_eq,
          not_false_iff, if_pos, Bool.false_eq_true, serializeList,
          serializeKeptList, String.empty_append]
        rw [serialize_setTail, hA, tailOf_setTail, Option.getD_some, tailOf_dedup]
        rw [String.append_assoc, String.append_assoc, hB, ← String.append_assoc]
end

mutual
/-- One pass keeps exactly the non-container nodes, in order. -/
theorem dedup_tags :
    ∀ e : Element, tagsTree (_remove_duplicated_headings e) = tagsKept e
  | .mk tag attrs text tail children => by
    simp [_remove_duplicated_headings, tagsTree, tagsKept, dedupChildren_tags children]
theorem dedupChildren_tags :
    ∀ l : ElementList, tagsList (dedupChildren l).1 = tagsKeptList l
  | .nil => rfl
  | .cons el rest => by
    by_cases hd : isDup el = true
    · simp [dedupChildren, hd, tagsKeptList, dedupChildren_tags rest]
    · by_cases hc : (dedupChildren rest).2 = ""
      · simp [dedupChildren, hd, hc, tagsList, tagsKeptList, dedup_tags el,
          dedupChildren_tags rest]
      · simp [dedupChildren, hd, hc, tagsList, tagsKeptList, tagsTree_setTail,
          dedup_tags el, dedupChildren_tags rest]
end

mutual
/-- One pass leaves no duplicate-heading container below any node. -/
theorem dedup_noDup :
    ∀ e : Element, noDupDescB (_remove_duplicated_headings e) = true
  | .mk tag attrs text tail children => by
    simp [_remove_duplicated_headings, noDupDescB, dedupChildren_noDup children]
theorem dedupChildren_noDup :
    ∀ l : ElementList, noDupListB (dedupChildren l).1 = true
  | .nil => rfl
  | .cons el rest => by
    by_cases hd : isDup el = true
    · simp [dedupChildren, hd, dedupChildren_noDup rest]
    · by_cases hc : (dedupChildren rest).2 = ""
      · simp [dedupChildren, hd, hc, noDupListB, isDup_dedup, dedup_noDup el,
          dedupChildren_noDup rest]
      · simp [dedupChildren, hd, hc, noDupListB, isDup_setTail, isDup_dedup,
          noDupDescB_setTail, dedup_noDup el, dedupChildren_noDup rest]
end

mutual
/-- A tree with no duplicate-heading container below any node is left
untouched by the pass. -/
theorem dedup_fix :
    ∀ e : Element, noDupDescB e = true → _remove_duplicated_headings e = e
  | .mk tag attrs text tail children => by
    intro h
    have h' : noDupListB children = true := h
    simp [_remove_duplicated_headings, dedupChildren_fix children h']
theorem dedupChildren_fix :
    ∀ l : ElementList, noDupListB l = true → dedupChildren l = (l, "")
  | .nil => fun _ => rfl
  | .cons el rest => by
    intro h
    simp only [noDupListB, Bool.and_eq_true, Bool.not_eq_true'] at h
    rcases h with ⟨⟨hd, hel⟩, hrest⟩
    simp [dedupChildren, hd, dedupChildren_fix rest hrest, dedup_fix el hel]
end

mutual
/-- A tree with no duplicate-heading container at all has none below any
node. -/
theorem hasDup_false_noDup :
    ∀ e : Element, hasDupB e = false → noDupDescB e = true
  | .mk tag attrs text tail children => by
    intro h
    simp only [hasDupB, Bool.or_eq_false_iff] at h
    exact hasDupList_false_noDupList children h.2
theorem hasDupList_false_noDupList :
    ∀ l : ElementList, hasDupListB l = false → noDupListB l = true
  | .nil => fun _ => rfl
  | .cons el rest => by
    intro h
    simp only [hasDupListB, Bool.or_eq_false_iff] at h
    rcases h with ⟨hel, hrest⟩
    have hd : isDup el = false := by
      cases el with
      | mk tag attrs text tail children =>
        simp only [hasDupB, Bool.or_eq_false_iff] at hel
        exact hel.1
    simp [noDupListB, hd, hasDup_false_noDup el hel,
      hasDupList_false_noDupList rest hrest]
end

/-- A duplicate-heading container with inner text `"T"` and trailing text
`"X"`. -/
def exDup : Element := .mk ("div") [("class", "mkdocstrings")] (some ("T")) (some ("X")) .nil

/-- A plain preceding sibling. -/
def exSpan : Element := .mk ("span") [] none none .nil

/-- A parent holding the sibling and then the container. -/
def ex3 : Element := .mk ("p") [] none none (.cons exSpan (.cons exDup .nil))

/--
C3, as stated: the pass carries each removed container's *trailing* text to
the nearest remaining sibling and loses no text.  False: the source carries
the container's `.text` (`carry_text = (el.text or "") + carry_text`) and
discards the removed container's `.tail` — on `ex3` the container's inner
text `"T"` moves to the sibling's tail while its trailing `"X"` is lost.
-/
theorem C3_counterexample :
    _remove_duplicated_headings ex3 =
        .mk ("p") [] none none (.cons (.mk ("span") [] none (some ("T")) .nil) .nil) ∧
      totalText (_remove_duplicated_headings ex3) ≠ totalText ex3 :=
  ⟨rfl, by decide⟩

/--
C3, amended: one run removes every duplicate-heading container, keeps each
removed container's *inner* text (`.text`, the stashed HTML) at its linear
position — appended to the tail of the nearest preceding remaining sibling,
or to the parent's leading text — while the removed containers' own
trailing text and descendants are discarded, and preserves the relative
order of all remaining nodes.
-/
theorem C3_dedup_spec (e : Element) :
    serialize (_remove_duplicated_headings e) = serializeKept e ∧
      tagsTree (_remove_duplicated_headings e) = tagsKept e ∧
      noDupDescB (_remove_duplicated_headings e) = true :=
  ⟨dedup_serialize e, dedup_tags e, dedup_noDup e⟩

/--
C7: on a tree containing no duplicate-heading container the pass is the
identity, and hence (the output of one run containing no such container
below any node) the pass is idempotent on every tree.
-/
theorem C7_dedup_idempotent (t : Element) :
    (hasDupB t = false → _remove_duplicated_headings t = t) ∧
      _remove_duplicated_headings (_remove_duplicated_headings t) =
        _remove_duplicated_headings t :=
  ⟨fun h => dedup_fix t (hasDup_false_noDup t h),
   dedup_fix _ (dedup_noDup t)⟩

/-- A small tree without duplicate-heading containers. -/
def ex7 : Element :=
  .mk ("p") [] (some ("a")) none (.cons (.mk ("span") [] none none .nil) .nil)

/-- Witness for `C7_dedup_idempotent` at a concrete input. -/
theorem C7_witness :
    hasDupB ex7 = false ∧ _remove_duplicated_headings ex7 = ex7 :=
  ⟨rfl, (C7_dedup_idempotent ex7).1 rfl⟩
